import Mathlib

/-!
# Verification of the clefd chord recognition engine

A shallow embedding of the core logic of `src/clefd.c`: the keysym
classifier `is_modifier_keysym`, the bounded pressed-key set
(`add_key`, `remove_key`), the chord canonicalizer `send_chord_event`,
and the event dispatcher `keyboard_event_handler`.

Key identities (XKB keycodes) and keysyms are modelled as natural
numbers.  The external XKB resolution context is modelled by two
function parameters: `state : Nat → Nat` (keycode to keysym,
`xkb_state_key_get_one_sym`) and `getName : Nat → String` (keysym to
display name, `xkb_keysym_get_name`).  Output to the FIFO transport is
modelled by the returned `Option String`.
-/

namespace Clefd

/-- `MAX_PRESSED_KEYS` from clefd.c: capacity of the pressed-key array. -/
def MAX_PRESSED_KEYS : Nat := 16

/-! ## XKB keysym constants (values from xkbcommon-keysyms.h) -/

def XKB_KEY_Shift_L : Nat := 0xffe1
def XKB_KEY_Shift_R : Nat := 0xffe2
def XKB_KEY_Control_L : Nat := 0xffe3
def XKB_KEY_Control_R : Nat := 0xffe4
def XKB_KEY_Caps_Lock : Nat := 0xffe5
def XKB_KEY_Meta_L : Nat := 0xffe7
def XKB_KEY_Meta_R : Nat := 0xffe8
def XKB_KEY_Alt_L : Nat := 0xffe9
def XKB_KEY_Alt_R : Nat := 0xffea
def XKB_KEY_Super_L : Nat := 0xffeb
def XKB_KEY_Super_R : Nat := 0xffec
def XKB_KEY_Hyper_L : Nat := 0xffed
def XKB_KEY_Hyper_R : Nat := 0xffee
def XKB_KEY_Num_Lock : Nat := 0xff7f
def XKB_KEY_Scroll_Lock : Nat := 0xff14

/-- `is_modifier_keysym` from clefd.c: the switch over the fifteen
modifier keysyms (Shift_L/R, Control_L/R, Alt_L/R, Super_L/R,
Meta_L/R, Hyper_L/R, Caps_Lock, Num_Lock, Scroll_Lock — the literals
below, in the source's case order), every other keysym falling to the
`default: false` branch. -/
def is_modifier_keysym (keysym : Nat) : Bool :=
  match keysym with
  | 0xffe1 | 0xffe2 | 0xffe3 | 0xffe4 | 0xffe9 | 0xffea | 0xffeb
  | 0xffec | 0xffe7 | 0xffe8 | 0xffed | 0xffee | 0xffe5 | 0xff7f | 0xff14 => true
  | _ => false

/-- `add_key` from clefd.c.  The pressed-key array is the list (in
insertion order, head = oldest).  Returns the updated list together
with a flag that is `true` exactly when the capacity warning is
printed (the function returns with the set unchanged in that case).
The duplicate scan is the second check, after the capacity check, as
in the source. -/
def add_key (pressed : List Nat) (keycode : Nat) : List Nat × Bool :=
  if MAX_PRESSED_KEYS ≤ pressed.length then (pressed, true)
  else if keycode ∈ pressed then (pressed, false)
  else (pressed ++ [keycode], false)

/-- `remove_key` from clefd.c: find the first occurrence of the
keycode and shift the remaining entries over it; no-op when absent. -/
def remove_key (pressed : List Nat) (keycode : Nat) : List Nat :=
  match pressed with
  | [] => []
  | k :: rest => if k = keycode then rest else k :: remove_key rest keycode

/-- The ordering used by `compare_strings` in clefd.c (`strcmp` on the
name strings): lexicographic byte order, which on the ASCII keysym
names is the lexicographic (codepoint) order on the character
sequences. -/
def compare_strings_le (a b : String) : Prop := a.data ≤ b.data

instance : DecidableRel compare_strings_le := fun a b => by
  unfold compare_strings_le; infer_instance

instance : IsTotal String compare_strings_le :=
  ⟨fun a b => le_total a.data b.data⟩

instance : IsTrans String compare_strings_le :=
  ⟨fun _ _ _ h1 h2 => le_trans h1 h2⟩

instance : IsAntisymm String compare_strings_le :=
  ⟨fun a b h1 h2 => by
    have h := le_antisymm h1 h2
    cases a; cases b; exact congrArg String.mk h⟩

/-- `send_chord_event` from clefd.c.  Walks the pressed-key array,
resolves each keycode to a keysym and its name, partitions the names
into modifier and non-modifier names (both in snapshot order), rejects
the snapshot unless exactly one non-modifier name is present, sorts
the modifier names with `qsort`/`compare_strings`, and concatenates
each modifier name followed by a space, then the single non-modifier
name.  `none` models the early return with nothing written to the
FIFO; `some s` models `s` being written (followed by a newline, see
`fifo_line`). -/
def send_chord_event (state : Nat → Nat) (getName : Nat → String)
    (pressed : List Nat) : Option String :=
  let modifier_names :=
    (pressed.filter (fun kc => is_modifier_keysym (state kc))).map
      (fun kc => getName (state kc))
  let key_names :=
    (pressed.filter (fun kc => !is_modifier_keysym (state kc))).map
      (fun kc => getName (state kc))
  if key_names.length ≠ 1 then none
  else
    let sorted_mods := List.insertionSort compare_strings_le modifier_names
    some ((sorted_mods.foldl (fun acc m => acc ++ m ++ " ") "") ++ key_names.headI)

/-- The line actually written to the FIFO transport:
`dprintf(fifo_fd, "%s\n", chord_str)` appends a newline to the chord
string. -/
def fifo_line (chord : String) : String := chord ++ "\n"

/-- A simplified keyboard event as consumed by
`keyboard_event_handler`: the raw libinput keycode and whether the
event is a press (`LIBINPUT_KEY_STATE_PRESSED`) or a release. -/
structure KeyEvent where
  keycode : Nat
  isPressed : Bool
deriving DecidableEq, Repr

/-- `keyboard_event_handler` from clefd.c.  Converts the raw keycode
to an XKB keycode by adding 8, then on a press adds the key and, when
the pressed key resolves to a non-modifier keysym, invokes
`send_chord_event` on the updated set; on a release removes the key.
Returns the new pressed-key list and the emitted chord, if any. -/
def keyboard_event_handler (state : Nat → Nat) (getName : Nat → String)
    (pressed : List Nat) (ev : KeyEvent) : List Nat × Option String :=
  let xkb_code := ev.keycode + 8
  if ev.isPressed then
    let pressed' := (add_key pressed xkb_code).1
    if !is_modifier_keysym (state xkb_code) then
      (pressed', send_chord_event state getName pressed')
    else
      (pressed', none)
  else
    (remove_key pressed xkb_code, none)

/-- Folding `keyboard_event_handler` over an event sequence, keeping
the pressed-key state (the main loop of `key_reader`, restricted to
keyboard events). -/
def run_events (state : Nat → Nat) (getName : Nat → String) :
    List Nat → List KeyEvent → List Nat
  | pressed, [] => pressed
  | pressed, ev :: rest =>
      run_events state getName (keyboard_event_handler state getName pressed ev).1 rest

/-! ## A concrete XKB context for the spec scenarios

The XKB keymap and keysym naming live in the external xkbcommon
library; for the concrete scenarios we model the relevant fragment of
a standard US keymap (evdev keycodes offset by 8) and the standard
keysym names. -/

/-- Keycode-to-keysym resolution for the keys used in the spec's
scenarios (XKB codes: 37 = Control_L, 50 = Shift_L, 62 = Shift_R,
38 = letter a, 56 = letter b; codes from 200 up are extra keys mapped
to Shift_L, as on keymaps with several physical keys per modifier);
every other keycode resolves to keysym 0 (unknown, a non-modifier). -/
def demoState (keycode : Nat) : Nat :=
  if keycode = 37 then XKB_KEY_Control_L
  else if keycode = 50 then XKB_KEY_Shift_L
  else if keycode = 62 then XKB_KEY_Shift_R
  else if keycode = 38 then 0x61
  else if keycode = 56 then 0x62
  else if 200 ≤ keycode then XKB_KEY_Shift_L
  else 0

/-- Keysym-to-name resolution (`xkb_keysym_get_name`) for the keysyms
used in the spec's scenarios, with the standard xkbcommon names;
unknown keysyms get an empty name. -/
def demoName (keysym : Nat) : String :=
  if keysym = XKB_KEY_Control_L then "Control_L"
  else if keysym = XKB_KEY_Shift_L then "Shift_L"
  else if keysym = XKB_KEY_Shift_R then "Shift_R"
  else if keysym = 0x61 then "a"
  else if keysym = 0x62 then "b"
  else ""

/-! ## Helper lemmas about the pressed-key set -/

/-- Removing a keycode that is not tracked is a no-op. -/
theorem remove_key_absent (pressed : List Nat) (kc : Nat) (h : kc ∉ pressed) :
    remove_key pressed kc = pressed := by
  induction pressed with
  | nil => rfl
  | cons k rest ih =>
    simp only [List.mem_cons, not_or] at h
    simp [remove_key, Ne.symm h.1, ih h.2]

/-- `remove_key` yields a sublist of its input. -/
theorem remove_key_sublist (pressed : List Nat) (kc : Nat) :
    List.Sublist (remove_key pressed kc) pressed := by
  induction pressed with
  | nil => simp [remove_key]
  | cons k rest ih =>
    simp only [remove_key]
    split_ifs
    · exact List.sublist_cons_self k rest
    · exact ih.cons₂ k

/-- `add_key` never grows the set beyond `MAX_PRESSED_KEYS`. -/
theorem add_key_length_le (pressed : List Nat) (kc : Nat)
    (h : pressed.length ≤ MAX_PRESSED_KEYS) :
    (add_key pressed kc).1.length ≤ MAX_PRESSED_KEYS := by
  unfold add_key
  split_ifs with h1 h2
  · exact h
  · exact h
  · simp only [List.length_append, List.length_singleton]
    unfold MAX_PRESSED_KEYS at h1 ⊢
    omega

/-- `add_key` never introduces a duplicate. -/
theorem add_key_nodup (pressed : List Nat) (kc : Nat) (h : pressed.Nodup) :
    (add_key pressed kc).1.Nodup := by
  unfold add_key
  split_ifs with h1 h2
  · exact h
  · exact h
  · simp [List.nodup_append, h, h2]

/-- One handler step preserves the bounded-no-duplicates invariant. -/
theorem keyboard_event_handler_preserves_inv (state : Nat → Nat)
    (getName : Nat → String) (pressed : List Nat) (ev : KeyEvent)
    (h : pressed.length ≤ MAX_PRESSED_KEYS ∧ pressed.Nodup) :
    (keyboard_event_handler state getName pressed ev).1.length ≤ MAX_PRESSED_KEYS ∧
      (keyboard_event_handler state getName pressed ev).1.Nodup := by
  simp only [keyboard_event_handler]
  split_ifs with h1 h2
  · exact ⟨add_key_length_le pressed _ h.1, add_key_nodup pressed _ h.2⟩
  · exact ⟨add_key_length_le pressed _ h.1, add_key_nodup pressed _ h.2⟩
  · exact ⟨le_trans (remove_key_sublist pressed _).length_le h.1,
      h.2.sublist (remove_key_sublist pressed _)⟩

/-! ## Claim theorems -/

/-- C1: the chord renderer emits a string iff exactly one held key
classifies as non-modifier: zero non-modifiers yield no output, two or
more yield no output, and exactly one non-modifier (with any number of
modifiers) yields exactly one string. -/
theorem send_chord_event_isSome_iff (state : Nat → Nat) (getName : Nat → String)
    (pressed : List Nat) :
    (send_chord_event state getName pressed).isSome = true ↔
      (pressed.filter (fun kc => !is_modifier_keysym (state kc))).length = 1 := by
  simp only [send_chord_event, List.length_map]
  split_ifs with h
  · simp [h]
  · simp only [ne_eq, not_not] at h
    simp [h]

/-- C5: `is_modifier_keysym` is a pure total function returning `true`
for exactly the left/right variants of Shift, Control, Alt,
Super/Meta, Hyper plus Caps Lock, Num Lock and Scroll Lock, and
`false` for every other keysym, unknown ones included. -/
theorem is_modifier_keysym_characterization (keysym : Nat) :
    is_modifier_keysym keysym = true ↔
      keysym ∈ [XKB_KEY_Shift_L, XKB_KEY_Shift_R, XKB_KEY_Control_L,
        XKB_KEY_Control_R, XKB_KEY_Alt_L, XKB_KEY_Alt_R, XKB_KEY_Super_L,
        XKB_KEY_Super_R, XKB_KEY_Meta_L, XKB_KEY_Meta_R, XKB_KEY_Hyper_L,
        XKB_KEY_Hyper_R, XKB_KEY_Caps_Lock, XKB_KEY_Num_Lock,
        XKB_KEY_Scroll_Lock] := by
  unfold is_modifier_keysym
  split
  all_goals simp_all [List.mem_cons, XKB_KEY_Shift_L, XKB_KEY_Shift_R,
    XKB_KEY_Control_L, XKB_KEY_Control_R, XKB_KEY_Caps_Lock, XKB_KEY_Meta_L,
    XKB_KEY_Meta_R, XKB_KEY_Alt_L, XKB_KEY_Alt_R, XKB_KEY_Super_L,
    XKB_KEY_Super_R, XKB_KEY_Hyper_L, XKB_KEY_Hyper_R, XKB_KEY_Num_Lock,
    XKB_KEY_Scroll_Lock]

/-- C8: `add_key` is idempotent — adding an already-present keycode
leaves the pressed-key list (membership and order) exactly unchanged. -/
theorem add_key_idempotent (pressed : List Nat) (kc : Nat) (h : kc ∈ pressed) :
    (add_key pressed kc).1 = pressed := by
  unfold add_key
  split_ifs <;> simp_all

theorem add_key_idempotent_witness :
    (10 : Nat) ∈ [10, 11] ∧ (add_key [10, 11] 10).1 = [10, 11] :=
  ⟨by decide, add_key_idempotent [10, 11] 10 (by decide)⟩

/-- C9: a release event never emits a chord — the handler only removes
the key from the pressed-key set (a no-op when the key is not tracked)
and never invokes the renderer. -/
theorem release_never_emits (state : Nat → Nat) (getName : Nat → String)
    (pressed : List Nat) (ev : KeyEvent) (h : ev.isPressed = false) :
    keyboard_event_handler state getName pressed ev =
      (remove_key pressed (ev.keycode + 8), none) ∧
      ((ev.keycode + 8) ∉ pressed → remove_key pressed (ev.keycode + 8) = pressed) := by
  refine ⟨?_, fun hmem => remove_key_absent pressed _ hmem⟩
  simp [keyboard_event_handler, h]

/-- C3: starting from the empty set, every sequence of press/release
events leaves the pressed-key set with at most `MAX_PRESSED_KEYS`
entries and no duplicated key identity. -/
theorem run_events_invariant (state : Nat → Nat) (getName : Nat → String)
    (evs : List KeyEvent) :
    (run_events state getName [] evs).length ≤ MAX_PRESSED_KEYS ∧
      (run_events state getName [] evs).Nodup := by
  have main : ∀ (l : List KeyEvent) (p : List Nat),
      p.length ≤ MAX_PRESSED_KEYS ∧ p.Nodup →
      (run_events state getName p l).length ≤ MAX_PRESSED_KEYS ∧
        (run_events state getName p l).Nodup := by
    intro l
    induction l with
    | nil => intro p hp; simpa [run_events] using hp
    | cons ev rest ih =>
      intro p hp
      simp only [run_events]
      exact ih _ (keyboard_event_handler_preserves_inv state getName p ev hp)
  exact main evs [] (by simp [MAX_PRESSED_KEYS])

/-- C2: the rendered chord output is invariant under permutation of
the snapshot order — any two insertion orders of the same key
identities produce identical output (modifier names sorted by the
`compare_strings` order). -/
theorem send_chord_event_perm_invariant (state : Nat → Nat)
    (getName : Nat → String) {p1 p2 : List Nat} (hp : p1.Perm p2) :
    send_chord_event state getName p1 = send_chord_event state getName p2 := by
  have hm := (hp.filter (fun kc => is_modifier_keysym (state kc))).map
    (fun kc => getName (state kc))
  have hk := (hp.filter (fun kc => !is_modifier_keysym (state kc))).map
    (fun kc => getName (state kc))
  simp only [send_chord_event]
  rw [hk.length_eq]
  split_ifs with h
  · rfl
  · have hlen : (List.map (fun kc => getName (state kc))
        (List.filter (fun kc => !is_modifier_keysym (state kc)) p2)).length = 1 := by
      simpa using h
    obtain ⟨a, ha⟩ := List.length_eq_one.mp hlen
    have hk1 : List.map (fun kc => getName (state kc))
        (List.filter (fun kc => !is_modifier_keysym (state kc)) p1) = [a] :=
      List.perm_singleton.mp (ha ▸ hk)
    have hsort : List.insertionSort compare_strings_le
        (List.map (fun kc => getName (state kc))
          (List.filter (fun kc => is_modifier_keysym (state kc)) p1)) =
        List.insertionSort compare_strings_le
          (List.map (fun kc => getName (state kc))
            (List.filter (fun kc => is_modifier_keysym (state kc)) p2)) :=
      List.eq_of_perm_of_sorted
        ((List.perm_insertionSort _ _).trans
          (hm.trans (List.perm_insertionSort _ _).symm))
        (List.sorted_insertionSort _ _) (List.sorted_insertionSort _ _)
    rw [hsort, hk1, ha]

theorem send_chord_event_perm_invariant_witness :
    ([37, 50, 38] : List Nat).Perm [50, 37, 38] ∧
      send_chord_event demoState demoName [37, 50, 38] =
        send_chord_event demoState demoName [50, 37, 38] :=
  ⟨List.Perm.swap 50 37 [38],
    send_chord_event_perm_invariant demoState demoName (List.Perm.swap 50 37 [38])⟩

theorem release_never_emits_witness :
    (KeyEvent.mk 29 false).isPressed = false ∧
      (keyboard_event_handler demoState demoName [37] (KeyEvent.mk 29 false) =
        (remove_key [37] ((KeyEvent.mk 29 false).keycode + 8), none) ∧
      (((KeyEvent.mk 29 false).keycode + 8) ∉ ([37] : List Nat) →
        remove_key [37] ((KeyEvent.mk 29 false).keycode + 8) = [37])) :=
  ⟨rfl, release_never_emits demoState demoName [37] (KeyEvent.mk 29 false) rfl⟩

/-! ## The shape of the built chord string -/

/-- Pulling the accumulator out of the modifier-concatenation loop. -/
theorem foldl_strcat_acc (mods : List String) (acc : String) :
    List.foldl (fun a m => a ++ m ++ " ") acc mods =
      acc ++ List.foldl (fun a m => a ++ m ++ " ") "" mods := by
  induction mods generalizing acc with
  | nil => simp [String.append_empty]
  | cons m ms ih =>
    simp only [List.foldl_cons]
    rw [ih (acc ++ m ++ " "), ih ("" ++ m ++ " ")]
    simp [String.append_assoc, String.empty_append]

/-- Unfolding of `String.intercalate.go` over a nonempty tail. -/
theorem intercalate_go_spec (s : String) (bs : List String) :
    ∀ (b acc : String),
      String.intercalate.go acc s (b :: bs) =
        acc ++ s ++ String.intercalate s (b :: bs) := by
  induction bs with
  | nil => intro b acc; simp [String.intercalate.go, String.intercalate]
  | cons c cs ih =>
    intro b acc
    rw [show String.intercalate.go acc s (b :: c :: cs) =
          String.intercalate.go (acc ++ s ++ b) s (c :: cs) from rfl,
        ih c (acc ++ s ++ b),
        show String.intercalate s (b :: c :: cs) =
          String.intercalate.go b s (c :: cs) from rfl,
        ih c b]
    simp [String.append_assoc]

/-- `String.intercalate` over a cons with nonempty tail. -/
theorem intercalate_cons_of_ne_nil (m : String) (rest : List String)
    (h : rest ≠ []) :
    String.intercalate " " (m :: rest) = m ++ " " ++ String.intercalate " " rest := by
  cases rest with
  | nil => exact absurd rfl h
  | cons b bs =>
    rw [show String.intercalate " " (m :: b :: bs) =
          String.intercalate.go m " " (b :: bs) from rfl]
    exact intercalate_go_spec " " bs b m

/-- The chord-building loop of `send_chord_event` (append each
modifier name followed by a space, then the key name) produces exactly
the space-separated join with no extra whitespace. -/
theorem build_chord_eq_intercalate (mods : List String) (key : String) :
    (List.foldl (fun acc m => acc ++ m ++ " ") "" mods) ++ key =
      String.intercalate " " (mods ++ [key]) := by
  induction mods with
  | nil => simp [String.intercalate, String.intercalate.go, String.empty_append]
  | cons m ms ih =>
    have hne : ms ++ [key] ≠ [] := by simp
    rw [List.cons_append, intercalate_cons_of_ne_nil m (ms ++ [key]) hne, ← ih]
    simp only [List.foldl_cons]
    rw [foldl_strcat_acc ms ("" ++ m ++ " ")]
    simp [String.append_assoc, String.empty_append]

/-- C4: every emitted chord string is the space-separated
concatenation of the sorted modifier display-names followed by the
single non-modifier display-name, with no whitespace beyond the single
separating spaces; the FIFO transport appends one newline; and
pressing Control_L, then Shift_L, then the letter a emits exactly
"Control_L Shift_L a". -/
theorem chord_string_canonical_format :
    (∀ (state : Nat → Nat) (getName : Nat → String) (pressed : List Nat) (s : String),
      send_chord_event state getName pressed = some s →
        s = String.intercalate " "
          ((List.insertionSort compare_strings_le
            ((pressed.filter (fun kc => is_modifier_keysym (state kc))).map
              (fun kc => getName (state kc)))) ++
            (pressed.filter (fun kc => !is_modifier_keysym (state kc))).map
              (fun kc => getName (state kc)))) ∧
      run_events demoState demoName []
        [KeyEvent.mk 29 true, KeyEvent.mk 42 true, KeyEvent.mk 30 true] =
          [37, 50, 38] ∧
      (keyboard_event_handler demoState demoName [37, 50] (KeyEvent.mk 30 true)).2 =
        some "Control_L Shift_L a" ∧
      fifo_line "Control_L Shift_L a" = "Control_L Shift_L a\n" := by
  refine ⟨?_, by decide, by decide, by decide⟩
  intro state getName pressed s h
  simp only [send_chord_event] at h
  split_ifs at h with hc
  · have hlen : ((pressed.filter (fun kc => !is_modifier_keysym (state kc))).map
        (fun kc => getName (state kc))).length = 1 := by simpa using hc
    obtain ⟨a, ha⟩ := List.length_eq_one.mp hlen
    rw [ha] at h ⊢
    rw [← Option.some.inj h]
    simp only [List.headI]
    exact build_chord_eq_intercalate _ a

theorem chord_string_canonical_format_witness :
    send_chord_event demoState demoName [37, 50, 38] =
        some "Control_L Shift_L a" ∧
      "Control_L Shift_L a" = String.intercalate " "
        ((List.insertionSort compare_strings_le
          ((([37, 50, 38] : List Nat).filter
            (fun kc => is_modifier_keysym (demoState kc))).map
              (fun kc => demoName (demoState kc)))) ++
          (([37, 50, 38] : List Nat).filter
            (fun kc => !is_modifier_keysym (demoState kc))).map
              (fun kc => demoName (demoState kc))) :=
  ⟨by decide, chord_string_canonical_format.1 demoState demoName [37, 50, 38]
    "Control_L Shift_L a" (by decide)⟩

/-- C6 counterexample: with the non-modifier key a (XKB code 38)
already held, a further press event for it leaves the set unchanged
but re-emits the chord "a" — the handler's render call is gated only
on the pressed key being a non-modifier, not on the `add_key` no-op —
refuting the claim that no chord is emitted for an already-held key. -/
theorem repeat_press_reemits_cex :
    (38 : Nat) ∈ ([38] : List Nat) ∧
      keyboard_event_handler demoState demoName [38] (KeyEvent.mk 30 true) =
        ([38], some "a") ∧
      (keyboard_event_handler demoState demoName [38] (KeyEvent.mk 30 true)).2 ≠
        none :=
  ⟨by decide, by decide, by decide⟩

/-- C6 amended: on a press event for an already-held key the
pressed-key set is unchanged and no chord is emitted when the held key
is a modifier; but when the already-held key is a non-modifier the
renderer is invoked again on the unchanged snapshot (re-emission). -/
theorem press_already_held_behavior (state : Nat → Nat) (getName : Nat → String)
    (pressed : List Nat) (ev : KeyEvent) (hpress : ev.isPressed = true)
    (hmem : (ev.keycode + 8) ∈ pressed) :
    keyboard_event_handler state getName pressed ev =
      (pressed,
        if is_modifier_keysym (state (ev.keycode + 8)) then none
        else send_chord_event state getName pressed) := by
  simp only [keyboard_event_handler, hpress, if_true]
  rw [add_key_idempotent pressed _ hmem]
  split_ifs <;> simp_all

theorem press_already_held_behavior_witness :
    (KeyEvent.mk 30 true).isPressed = true ∧
      ((KeyEvent.mk 30 true).keycode + 8) ∈ ([38] : List Nat) ∧
      keyboard_event_handler demoState demoName [38] (KeyEvent.mk 30 true) =
        ([38],
          if is_modifier_keysym (demoState ((KeyEvent.mk 30 true).keycode + 8))
          then none else send_chord_event demoState demoName [38]) :=
  ⟨rfl, by decide, press_already_held_behavior demoState demoName [38]
    (KeyEvent.mk 30 true) rfl (by decide)⟩

/-- C7: with the pressed-key set at capacity, `add_key` leaves the set
unchanged and reports the capacity warning (non-fatally, returning
normally); after 17 distinct presses only the first 16 keys are
tracked — the 17th (XKB code 124) is absent — so any subsequent
rendering sees only the first 16 held keys. -/
theorem add_key_at_capacity :
    (∀ (pressed : List Nat) (kc : Nat), pressed.length = MAX_PRESSED_KEYS →
      add_key pressed kc = (pressed, true)) ∧
      run_events demoState demoName []
        ((List.range 17).map (fun i => KeyEvent.mk (100 + i) true)) =
        (List.range 16).map (fun i => 108 + i) ∧
      (124 : Nat) ∉ run_events demoState demoName []
        ((List.range 17).map (fun i => KeyEvent.mk (100 + i) true)) := by
  refine ⟨?_, by decide, by decide⟩
  intro pressed kc h
  unfold add_key
  rw [if_pos (le_of_eq h.symm)]

theorem add_key_at_capacity_witness :
    ((List.range 16).map (fun i => 108 + i)).length = MAX_PRESSED_KEYS ∧
      add_key ((List.range 16).map (fun i => 108 + i)) 124 =
        ((List.range 16).map (fun i => 108 + i), true) :=
  ⟨by decide, add_key_at_capacity.1 _ 124 (by decide)⟩

/-- C10: when the set is at capacity and a press event arrives for an
absent non-modifier key, `add_key` drops the key yet the handler still
invokes the renderer — on the snapshot that does not contain the
triggering key; if that snapshot already holds exactly one
non-modifier, a chord is emitted that comes from a snapshot without
the key whose press triggered it. -/
theorem capacity_drop_still_renders (state : Nat → Nat) (getName : Nat → String)
    (pressed : List Nat) (ev : KeyEvent) (hpress : ev.isPressed = true)
    (hcap : pressed.length = MAX_PRESSED_KEYS)
    (habs : (ev.keycode + 8) ∉ pressed)
    (hnm : is_modifier_keysym (state (ev.keycode + 8)) = false) :
    keyboard_event_handler state getName pressed ev =
      (pressed, send_chord_event state getName pressed) ∧
      (ev.keycode + 8) ∉ pressed ∧
      ((pressed.filter (fun kc => !is_modifier_keysym (state kc))).length = 1 →
        ∃ s, (keyboard_event_handler state getName pressed ev).2 = some s) := by
  have hadd : (add_key pressed (ev.keycode + 8)).1 = pressed := by
    unfold add_key
    rw [if_pos (le_of_eq hcap.symm)]
  have hmain : keyboard_event_handler state getName pressed ev =
      (pressed, send_chord_event state getName pressed) := by
    simp only [keyboard_event_handler, hpress, hnm, Bool.not_false, if_true]
    rw [hadd]
  refine ⟨hmain, habs, fun hone => ?_⟩
  rw [hmain]
  simp only [send_chord_event, List.length_map]
  rw [if_neg (by simp [hone])]
  exact ⟨_, rfl⟩

theorem capacity_drop_still_renders_witness :
    (KeyEvent.mk 92 true).isPressed = true ∧
      (([38] ++ (List.range 15).map (fun i => 200 + i) : List Nat)).length =
        MAX_PRESSED_KEYS ∧
      ((KeyEvent.mk 92 true).keycode + 8) ∉
        (([38] ++ (List.range 15).map (fun i => 200 + i)) : List Nat) ∧
      is_modifier_keysym (demoState ((KeyEvent.mk 92 true).keycode + 8)) = false ∧
      (keyboard_event_handler demoState demoName
          ([38] ++ (List.range 15).map (fun i => 200 + i)) (KeyEvent.mk 92 true) =
        ([38] ++ (List.range 15).map (fun i => 200 + i),
          send_chord_event demoState demoName
            ([38] ++ (List.range 15).map (fun i => 200 + i))) ∧
        ((KeyEvent.mk 92 true).keycode + 8) ∉
          (([38] ++ (List.range 15).map (fun i => 200 + i)) : List Nat) ∧
        (((([38] ++ (List.range 15).map (fun i => 200 + i)) : List Nat).filter
            (fun kc => !is_modifier_keysym (demoState kc))).length = 1 →
          ∃ s, (keyboard_event_handler demoState demoName
            ([38] ++ (List.range 15).map (fun i => 200 + i))
            (KeyEvent.mk 92 true)).2 = some s)) :=
  ⟨rfl, by decide, by decide, by decide,
    capacity_drop_still_renders demoState demoName
      ([38] ++ (List.range 15).map (fun i => 200 + i)) (KeyEvent.mk 92 true)
      rfl (by decide) (by decide) (by decide)⟩

end Clefd
